import Mathlib

/- Verification of the Policy Arena rating engine.

   This file gives a shallow embedding of the rating and pairwise-outcome
   engine of the repository (convex/elo.ts, convex/evalSessions.ts,
   convex/policies.ts) and proves or refutes the behavioral claims of the
   specification.  Numbers stored as JavaScript floats are modelled as
   exact reals; BigInt counters as integers; the transactional document
   store as explicit record-of-lists state passed through the operations. -/

namespace PolicyArena

/- ==================== convex/elo.ts ==================== -/

noncomputable section

/-- Embedding of the constant K = 32 of convex/elo.ts. -/
def K : ℝ := 32

/-- Embedding of the rounding step Math.round(x * 100) / 100 used throughout
the code.  JavaScript Math.round rounds half toward positive infinity, which
is exactly Mathlib's round. -/
def round2 (x : ℝ) : ℝ := (round (x * 100) : ℤ) / 100

/-- Embedding of the intermediate expectedA of computeEloUpdate. -/
def eloExpectedA (ratingA ratingB : ℝ) : ℝ :=
  1 / (1 + (10 : ℝ) ^ ((ratingB - ratingA) / 400))

/-- Embedding of the intermediate newA of computeEloUpdate, before rounding. -/
def eloPreA (ratingA ratingB scoreA : ℝ) : ℝ :=
  ratingA + K * (scoreA - eloExpectedA ratingA ratingB)

/-- Embedding of the intermediate newB of computeEloUpdate, before rounding:
expectedB = 1 - expectedA and scoreB = 1 - scoreA. -/
def eloPreB (ratingA ratingB scoreA : ℝ) : ℝ :=
  ratingB + K * ((1 - scoreA) - (1 - eloExpectedA ratingA ratingB))

/-- Embedding of computeEloUpdate of convex/elo.ts. -/
def computeEloUpdate (ratingA ratingB scoreA : ℝ) : ℝ × ℝ :=
  (round2 (eloPreA ratingA ratingB scoreA), round2 (eloPreB ratingA ratingB scoreA))

end

/-- Rounding half away from zero, as the specification describes the output
rounding of computeEloUpdate.  Modelled from the spec for comparison with the
code's Math.round; this is not what the code does at negative exact halves. -/
noncomputable def specRoundAway (x : ℝ) : ℤ :=
  if 0 ≤ x then ⌊x + 1 / 2⌋ else -⌊-x + 1 / 2⌋

/- ==================== evaluation helpers ==================== -/

lemma round2_eq_of_bounds (x : ℝ) (n : ℤ) (h1 : (n : ℝ) ≤ x * 100 + 1 / 2)
    (h2 : x * 100 + 1 / 2 < n + 1) : round2 x = (n : ℝ) / 100 := by
  have hr : round (x * 100) = n := by
    rw [round_eq]
    exact Int.floor_eq_iff.mpr ⟨h1, h2⟩
  rw [round2, hr]

lemma eloExpectedA_self (r : ℝ) : eloExpectedA r r = 1 / 2 := by
  unfold eloExpectedA
  rw [sub_self, zero_div, Real.rpow_zero]
  norm_num

lemma abs_round2_sub_le (x : ℝ) : |round2 x - x| ≤ 1 / 200 := by
  have h := abs_sub_round (α := ℝ) (x * 100)
  rw [abs_sub_comm] at h
  have : round2 x - x = ((round (x * 100) : ℝ) - x * 100) / 100 := by
    rw [round2]; ring
  rw [this, abs_div]
  rw [abs_of_pos (by norm_num : (0:ℝ) < 100)]
  linarith

/- ==================== C3: zero-sum property ==================== -/

/-- C3 as stated is false: with ratingA = ratingB = 1500.003 and scoreA = 1,
the rounded outputs are 1516.00 and 1484.00, so the two rating deltas are
15.997 and -16.003, which are not of equal magnitude. -/
theorem C3_counterexample :
    ¬ ((computeEloUpdate (1500003 / 1000) (1500003 / 1000) 1).1 - 1500003 / 1000 =
       -((computeEloUpdate (1500003 / 1000) (1500003 / 1000) 1).2 - 1500003 / 1000)) := by
  have hA : (computeEloUpdate (1500003 / 1000) (1500003 / 1000) 1).1 = ((151600 : ℤ) : ℝ) / 100 := by
    show round2 (eloPreA (1500003 / 1000) (1500003 / 1000) 1) = _
    have hp : eloPreA (1500003 / 1000) (1500003 / 1000) 1 = 1516 + 3 / 1000 := by
      rw [eloPreA, eloExpectedA_self, K]; norm_num
    rw [hp]
    apply round2_eq_of_bounds <;> norm_num
  have hB : (computeEloUpdate (1500003 / 1000) (1500003 / 1000) 1).2 = ((148400 : ℤ) : ℝ) / 100 := by
    show round2 (eloPreB (1500003 / 1000) (1500003 / 1000) 1) = _
    have hp : eloPreB (1500003 / 1000) (1500003 / 1000) 1 = 1484 + 3 / 1000 := by
      rw [eloPreB, eloExpectedA_self, K]; norm_num
    rw [hp]
    apply round2_eq_of_bounds <;> norm_num
  rw [hA, hB]
  norm_num

/-- C3 (amended): the zero-sum property of the rounded computeEloUpdate outputs
holds whenever both input ratings are whole multiples of 0.01 (as every stored
rating is) and the unrounded rating delta, scaled to hundredths, does not land
exactly on a rounding tie; the counterexample shows it fails for misaligned
ratings (and at a tie both outputs round toward positive infinity). -/
theorem C3_zero_sum (a b s : ℝ) (A B : ℤ) (ha : a = (A : ℝ) / 100) (hb : b = (B : ℝ) / 100)
    (htie : ∀ n : ℤ, 100 * (K * (s - eloExpectedA a b)) + 1 / 2 ≠ (n : ℝ)) :
    (computeEloUpdate a b s).1 - a = -((computeEloUpdate a b s).2 - b) := by
  set d := K * (s - eloExpectedA a b) with hd
  have hpreA : eloPreA a b s = a + d := by rw [eloPreA]
  have hpreB : eloPreB a b s = b - d := by rw [eloPreB, hd]; ring
  have h1 : (computeEloUpdate a b s).1 = ((A + ⌊100 * d + 1 / 2⌋ : ℤ) : ℝ) / 100 := by
    show round2 (eloPreA a b s) = _
    rw [round2, round_eq, hpreA, ha]
    have harg : ((A : ℝ) / 100 + d) * 100 + 1 / 2 = (100 * d + 1 / 2) + (A : ℝ) := by ring
    rw [harg, Int.floor_add_int]
    push_cast
    ring
  have h2 : (computeEloUpdate a b s).2 = ((B + ⌊1 / 2 - 100 * d⌋ : ℤ) : ℝ) / 100 := by
    show round2 (eloPreB a b s) = _
    rw [round2, round_eq, hpreB, hb]
    have harg : ((B : ℝ) / 100 - d) * 100 + 1 / 2 = (1 / 2 - 100 * d) + (B : ℝ) := by ring
    rw [harg, Int.floor_add_int]
    push_cast
    ring
  have key : ⌊1 / 2 - 100 * d⌋ = -⌊100 * d + 1 / 2⌋ := by
    have hfl : ((⌊100 * d + 1 / 2⌋ : ℤ) : ℝ) ≤ 100 * d + 1 / 2 := Int.floor_le _
    have hlt : 100 * d + 1 / 2 < ⌊100 * d + 1 / 2⌋ + 1 := Int.lt_floor_add_one _
    have hstrict : ((⌊100 * d + 1 / 2⌋ : ℤ) : ℝ) < 100 * d + 1 / 2 :=
      lt_of_le_of_ne hfl fun h => htie ⌊100 * d + 1 / 2⌋ h.symm
    apply Int.floor_eq_iff.mpr
    constructor
    · push_cast
      linarith
    · push_cast
      linarith
  rw [h1, h2, key, ha, hb]
  push_cast
  ring

/-- Witness for C3_zero_sum at ratingA = ratingB = 1500, scoreA = 1 (the
rounded deltas are +16 and -16). -/
theorem C3_zero_sum_witness :
    (computeEloUpdate 1500 1500 1).1 - 1500 = -((computeEloUpdate 1500 1500 1).2 - 1500) := by
  apply C3_zero_sum 1500 1500 1 150000 150000 (by norm_num) (by norm_num)
  intro n hn
  rw [eloExpectedA_self, K] at hn
  have h2 : ((2 * n : ℤ) : ℝ) = 3201 := by push_cast; linarith
  have h3 : (2 * n : ℤ) = 3201 := by exact_mod_cast h2
  omega

/- ==================== C7: output rounding mode ==================== -/

/-- C7 as stated is false: with ratingA = ratingB = -0.125 and scoreA = 1/2 the
unrounded new rating is -0.125, an exact negative half at the hundredths
digit; rounding half away from zero would give -0.13, but computeEloUpdate
returns -0.12, i.e. Math.round's half-toward-positive-infinity. -/
theorem C7_counterexample :
    (computeEloUpdate (-(1 / 8)) (-(1 / 8)) (1 / 2)).1 = -(12 / 100) ∧
    ((specRoundAway (eloPreA (-(1 / 8)) (-(1 / 8)) (1 / 2) * 100) : ℝ) / 100 = -(13 / 100)) := by
  have hpre : eloPreA (-(1 / 8)) (-(1 / 8)) (1 / 2) = -(1 / 8) := by
    rw [eloPreA, eloExpectedA_self]; norm_num
  constructor
  · show round2 (eloPreA (-(1 / 8)) (-(1 / 8)) (1 / 2)) = _
    rw [hpre]
    have h := round2_eq_of_bounds (-(1 / 8)) (-12) (by norm_num) (by norm_num)
    rw [h]; norm_num
  · rw [hpre, specRoundAway, if_neg (by norm_num)]
    have hfl : ⌊-(-(1 / 8 : ℝ) * 100) + 1 / 2⌋ = (13 : ℤ) := by
      apply Int.floor_eq_iff.mpr
      constructor <;> norm_num
    rw [hfl]
    norm_num

/-- C7 (amended): computeEloUpdate returns the two unrounded ratings rounded to
2 decimal places with ties at the hundredths digit rounded toward positive
infinity (JavaScript Math.round), i.e. each output is floor(100 x + 1/2)/100;
in particular each output is within half a hundredth of the unrounded value. -/
theorem C7_rounding (a b s : ℝ) :
    (computeEloUpdate a b s).1 = ((⌊eloPreA a b s * 100 + 1 / 2⌋ : ℤ) : ℝ) / 100 ∧
    (computeEloUpdate a b s).2 = ((⌊eloPreB a b s * 100 + 1 / 2⌋ : ℤ) : ℝ) / 100 ∧
    |(computeEloUpdate a b s).1 - eloPreA a b s| ≤ 1 / 200 ∧
    |(computeEloUpdate a b s).2 - eloPreB a b s| ≤ 1 / 200 := by
  refine ⟨?_, ?_, abs_round2_sub_le _, abs_round2_sub_le _⟩
  · show round2 (eloPreA a b s) = _
    rw [round2, round_eq]
  · show round2 (eloPreB a b s) = _
    rw [round2, round_eq]

/- ==================== pairwise rating pipeline ==================== -/

/-- Accumulated per-policy deltas of one ingestion or replay pass: the local
mutable maps eloDeltas, winDeltas, lossDeltas, drawDeltas of evalSessions.ts,
modelled as total functions from policy id that default to 0. -/
structure Deltas where
  elo : ℕ → ℝ
  wins : ℕ → ℤ
  losses : ℕ → ℤ
  draws : ℕ → ℤ

/-- All delta maps start at zero. -/
noncomputable def Deltas.init : Deltas :=
  ⟨fun _ => 0, fun _ => 0, fun _ => 0, fun _ => 0⟩

/-- One iteration of the pairwise loop of submit (evalSessions.ts lines
120-159); the loop body of addRounds (lines 552-591) is textually identical.
getElo is the stored rating read back from the database, which does not change
while deltas accumulate.  On a draw neither rating delta is touched. -/
noncomputable def ingestPairStep (getElo : ℕ → ℝ) (d : Deltas) (a b : ℕ × Bool) : Deltas :=
  let ratingA := getElo a.1 + d.elo a.1
  let ratingB := getElo b.1 + d.elo b.1
  if a.2 && !b.2 then
    let u := computeEloUpdate ratingA ratingB 1
    { elo := Function.update (Function.update d.elo a.1 (u.1 - getElo a.1)) b.1 (u.2 - getElo b.1)
      wins := Function.update d.wins a.1 (d.wins a.1 + 1)
      losses := Function.update d.losses b.1 (d.losses b.1 + 1)
      draws := d.draws }
  else if !a.2 && b.2 then
    let u := computeEloUpdate ratingA ratingB 0
    { elo := Function.update (Function.update d.elo a.1 (u.1 - getElo a.1)) b.1 (u.2 - getElo b.1)
      wins := Function.update d.wins b.1 (d.wins b.1 + 1)
      losses := Function.update d.losses a.1 (d.losses a.1 + 1)
      draws := d.draws }
  else
    let d1 := Function.update d.draws a.1 (d.draws a.1 + 1)
    { elo := d.elo
      wins := d.wins
      losses := d.losses
      draws := Function.update d1 b.1 (d1 b.1 + 1) }

/-- One iteration of the pairwise loop of the replay inside deleteSession
(evalSessions.ts lines 357-405).  Unlike the ingest loop, the elo update is
applied for every score, including the draw score 0.5. -/
noncomputable def replayPairStep (getElo : ℕ → ℝ) (d : Deltas) (a b : ℕ × Bool) : Deltas :=
  let ratingA := getElo a.1 + d.elo a.1
  let ratingB := getElo b.1 + d.elo b.1
  let scoreA : ℝ := if a.2 && !b.2 then 1 else if !a.2 && b.2 then 0 else 1 / 2
  let wins :=
    if a.2 && !b.2 then Function.update d.wins a.1 (d.wins a.1 + 1)
    else if !a.2 && b.2 then Function.update d.wins b.1 (d.wins b.1 + 1)
    else d.wins
  let losses :=
    if a.2 && !b.2 then Function.update d.losses b.1 (d.losses b.1 + 1)
    else if !a.2 && b.2 then Function.update d.losses a.1 (d.losses a.1 + 1)
    else d.losses
  let draws :=
    if a.2 && !b.2 then d.draws
    else if !a.2 && b.2 then d.draws
    else
      let d1 := Function.update d.draws a.1 (d.draws a.1 + 1)
      Function.update d1 b.1 (d1 b.1 + 1)
  let u := computeEloUpdate ratingA ratingB scoreA
  { elo := Function.update (Function.update d.elo a.1 (u.1 - getElo a.1)) b.1 (u.2 - getElo b.1)
    wins := wins
    losses := losses
    draws := draws }

/-- The pair iteration order of the nested loops for i, for j in (i, n): all
pairs (l[i], l[j]) with i < j, in ascending lexicographic index order. -/
def orderedPairs {α : Type} : List α → List (α × α)
  | [] => []
  | x :: xs => (xs.map fun y => (x, y)) ++ orderedPairs xs

/-- The per-round pairwise loop of submit and addRounds. -/
noncomputable def ingestRound (getElo : ℕ → ℝ) (d : Deltas) (results : List (ℕ × Bool)) : Deltas :=
  (orderedPairs results).foldl (fun acc p => ingestPairStep getElo acc p.1 p.2) d

/-- The whole-session round loop of submit and addRounds: deltas accumulate
across rounds, in submission order. -/
noncomputable def ingestRounds (getElo : ℕ → ℝ) (d : Deltas)
    (rounds : List (List (ℕ × Bool))) : Deltas :=
  rounds.foldl (ingestRound getElo) d

/-- The per-round pairwise loop of the replay inside deleteSession. -/
noncomputable def replayRound (getElo : ℕ → ℝ) (d : Deltas) (results : List (ℕ × Bool)) : Deltas :=
  (orderedPairs results).foldl (fun acc p => replayPairStep getElo acc p.1 p.2) d

/-- The whole-session round loop of the replay inside deleteSession. -/
noncomputable def replayRounds (getElo : ℕ → ℝ) (d : Deltas)
    (rounds : List (List (ℕ × Bool))) : Deltas :=
  rounds.foldl (replayRound getElo) d

/-- The pairwise score of the specification's Outcome Deriver: 1 if i
succeeded and j failed, 0 if i failed and j succeeded, 0.5 otherwise. -/
def specScore (sa sb : Bool) : ℚ :=
  if sa && !sb then 1 else if !sa && sb then 0 else 1 / 2

lemma mem_orderedPairs {α : Type} (l : List α) (p : α × α) :
    p ∈ orderedPairs l ↔
      ∃ (i j : ℕ) (hij : i < j) (hj : j < l.length),
        p = (l.get ⟨i, hij.trans hj⟩, l.get ⟨j, hj⟩) := by
  induction l with
  | nil => simp [orderedPairs]
  | cons x xs ih =>
    simp only [orderedPairs, List.mem_append, List.mem_map, ih]
    constructor
    · rintro (⟨y, hy, rfl⟩ | ⟨i, j, hij, hj, rfl⟩)
      · obtain ⟨⟨k, hk⟩, hget⟩ := List.mem_iff_get.mp hy
        refine ⟨0, k + 1, Nat.succ_pos k, by simpa using Nat.succ_lt_succ hk, ?_⟩
        simp [← hget]
      · refine ⟨i + 1, j + 1, Nat.succ_lt_succ hij, by simpa using Nat.succ_lt_succ hj, ?_⟩
        simp
    · rintro ⟨i, j, hij, hj, rfl⟩
      match i, j, hij, hj with
      | 0, jv + 1, hij, hj =>
        left
        refine ⟨xs.get ⟨jv, by simpa using hj⟩, List.get_mem _ _ _, ?_⟩
        simp
      | iv + 1, jv + 1, hij, hj =>
        right
        exact ⟨iv, jv, by omega, by simpa using hj, by simp⟩

lemma length_orderedPairs {α : Type} (l : List α) :
    (orderedPairs l).length = Nat.choose l.length 2 := by
  induction l with
  | nil => simp [orderedPairs]
  | cons x xs ih =>
    have h : Nat.choose (xs.length + 1) 2 = Nat.choose xs.length 2 + xs.length := by
      rw [Nat.choose_succ_succ, Nat.choose_one_right]
      norm_num
      omega
    simp only [orderedPairs, List.length_append, List.length_map, ih, List.length_cons, h]
    omega

/- ==================== C2: draw neutrality ==================== -/

lemma eloExpectedA_1900_1500 : eloExpectedA 1900 1500 = 10 / 11 := by
  rw [eloExpectedA]
  have h1 : ((1500 : ℝ) - 1900) / 400 = ((-1 : ℤ) : ℝ) := by norm_num
  rw [h1, Real.rpow_intCast]
  norm_num

/-- C2: draw neutrality holds for the pairwise step shared by submit and
addRounds (equal success values leave both rating deltas untouched and bump
each policy's draw counter by exactly 1), but it fails for the replay step
inside deleteSession, which feeds every draw through computeEloUpdate with
score 0.5: replaying a draw between two policies whose accumulated ratings are
1900 and 1500 moves policy 0's accumulated rating delta from 400 to 386.91. -/
theorem C2_draw_neutrality :
    (∀ (g : ℕ → ℝ) (d : Deltas) (a b : ℕ × Bool), a.2 = b.2 →
      (ingestPairStep g d a b).elo = d.elo ∧
      (a.1 ≠ b.1 →
        (ingestPairStep g d a b).draws a.1 = d.draws a.1 + 1 ∧
        (ingestPairStep g d a b).draws b.1 = d.draws b.1 + 1)) ∧
    (replayPairStep (fun _ => 1500)
        ⟨Function.update (fun _ => 0) 0 400, fun _ => 0, fun _ => 0, fun _ => 0⟩
        (0, true) (1, true)).elo 0 ≠ 400 := by
  constructor
  · rintro g d ⟨i, sa⟩ ⟨j, sb⟩ h
    simp only at h
    subst h
    cases sa <;>
      refine ⟨by simp [ingestPairStep], fun hij => ?_⟩ <;>
      simp [ingestPairStep, Function.update_apply, hij, Ne.symm hij]
  · have hpre : eloPreA 1900 1500 (1 / 2) = 20756 / 11 := by
      rw [eloPreA, eloExpectedA_1900_1500, K]
      norm_num
    have hr : round2 (20756 / 11) = ((188691 : ℤ) : ℝ) / 100 :=
      round2_eq_of_bounds _ _ (by norm_num) (by norm_num)
    simp only [replayPairStep, computeEloUpdate, Function.update_apply]
    norm_num
    rw [hpre, hr]
    norm_num

/- ==================== C4: pairwise outcome derivation ==================== -/

/-- C4: the ingest pipeline pairs every i < j in input order (and only those,
in ascending order, choose-2 many); each pair is scored 1 if i succeeded and j
failed, 0 if i failed and j succeeded, 0.5 otherwise, with win/loss/draw
counters and the elo update driven by that score; and on the Scenario B round
[A success, B fail, C success] the derived pairs are (A,B), (A,C), (B,C) with
scores 1, 0.5, 0 and counter deltas A: 1 win 1 draw, B: 2 losses 0 draws,
C: 1 win 1 draw. -/
theorem C4_outcome_derivation :
    (∀ (l : List (ℕ × Bool)) (p : (ℕ × Bool) × (ℕ × Bool)),
        p ∈ orderedPairs l ↔
          ∃ (i j : ℕ) (hij : i < j) (hj : j < l.length),
            p = (l.get ⟨i, hij.trans hj⟩, l.get ⟨j, hj⟩)) ∧
    (∀ (l : List (ℕ × Bool)), (orderedPairs l).length = Nat.choose l.length 2) ∧
    (∀ (g : ℕ → ℝ) (d : Deltas) (a b : ℕ × Bool), a.1 ≠ b.1 →
      (ingestPairStep g d a b).wins a.1 = d.wins a.1 + (if specScore a.2 b.2 = 1 then 1 else 0) ∧
      (ingestPairStep g d a b).losses a.1 = d.losses a.1 + (if specScore a.2 b.2 = 0 then 1 else 0) ∧
      (ingestPairStep g d a b).draws a.1 = d.draws a.1 + (if specScore a.2 b.2 = 1 / 2 then 1 else 0) ∧
      (ingestPairStep g d a b).wins b.1 = d.wins b.1 + (if specScore a.2 b.2 = 0 then 1 else 0) ∧
      (ingestPairStep g d a b).losses b.1 = d.losses b.1 + (if specScore a.2 b.2 = 1 then 1 else 0) ∧
      (ingestPairStep g d a b).draws b.1 = d.draws b.1 + (if specScore a.2 b.2 = 1 / 2 then 1 else 0) ∧
      (ingestPairStep g d a b).elo =
        (if specScore a.2 b.2 = 1 / 2 then d.elo else
          Function.update (Function.update d.elo a.1
              ((computeEloUpdate (g a.1 + d.elo a.1) (g b.1 + d.elo b.1)
                ((specScore a.2 b.2 : ℚ) : ℝ)).1 - g a.1)) b.1
            ((computeEloUpdate (g a.1 + d.elo a.1) (g b.1 + d.elo b.1)
                ((specScore a.2 b.2 : ℚ) : ℝ)).2 - g b.1))) ∧
    (orderedPairs [(0, true), (1, false), (2, true)] =
        [((0, true), (1, false)), ((0, true), (2, true)), ((1, false), (2, true))] ∧
      specScore true false = 1 ∧ specScore true true = 1 / 2 ∧ specScore false true = 0) ∧
    (∀ g : ℕ → ℝ,
      (ingestRound g Deltas.init [(0, true), (1, false), (2, true)]).wins 0 = 1 ∧
      (ingestRound g Deltas.init [(0, true), (1, false), (2, true)]).losses 0 = 0 ∧
      (ingestRound g Deltas.init [(0, true), (1, false), (2, true)]).draws 0 = 1 ∧
      (ingestRound g Deltas.init [(0, true), (1, false), (2, true)]).wins 1 = 0 ∧
      (ingestRound g Deltas.init [(0, true), (1, false), (2, true)]).losses 1 = 2 ∧
      (ingestRound g Deltas.init [(0, true), (1, false), (2, true)]).draws 1 = 0 ∧
      (ingestRound g Deltas.init [(0, true), (1, false), (2, true)]).wins 2 = 1 ∧
      (ingestRound g Deltas.init [(0, true), (1, false), (2, true)]).losses 2 = 0 ∧
      (ingestRound g Deltas.init [(0, true), (1, false), (2, true)]).draws 2 = 1) := by
  refine ⟨mem_orderedPairs, length_orderedPairs, ?_,
    ⟨by decide, by norm_num [specScore], by norm_num [specScore], by norm_num [specScore]⟩, ?_⟩
  · rintro g d ⟨i, sa⟩ ⟨j, sb⟩ hij
    simp only at hij
    cases sa <;> cases sb <;>
      refine ⟨?_, ?_, ?_, ?_, ?_, ?_, ?_⟩ <;>
      simp [ingestPairStep, specScore, Function.update_apply, hij, Ne.symm hij]
  · intro g
    refine ⟨?_, ?_, ?_, ?_, ?_, ?_, ?_, ?_, ?_⟩ <;>
      simp [ingestRound, orderedPairs, ingestPairStep, Deltas.init, Function.update_apply]

/-- Witness for C4_outcome_derivation: the Scenario B round contains the pair
(A, B) at indices 0 < 1, and a concrete draw pair leaves the draw counter
formula satisfied. -/
theorem C4_witness :
    ((0, true), (1, false)) ∈ orderedPairs [(0, true), (1, false), (2, true)] ∧
    (ingestPairStep (fun _ => 1500) Deltas.init (0, true) (1, true)).draws 0 =
      Deltas.init.draws 0 + (if specScore true true = 1 / 2 then 1 else 0) := by
  constructor
  · exact (C4_outcome_derivation.1 _ _).mpr ⟨0, 1, by norm_num, by norm_num, by simp⟩
  · exact (C4_outcome_derivation.2.2.1 (fun _ => 1500) Deltas.init (0, true) (1, true)
      (by norm_num)).2.2.1

/- ==================== document store model ==================== -/

/-- A policies document.  Ids are positions in the DB's policy list (policies
are never deleted, so positions are stable). -/
structure Policy where
  name : String
  model_id : String
  model_url : Option String
  training_url : Option String
  environment : String
  elo : ℝ
  wins : ℤ
  losses : ℤ
  draws : ℤ

/-- An evalSessions document; sid is the document id, assigned from a counter
so that ascending sid = ascending creation time. -/
structure SessionRow where
  sid : ℕ
  dataset_repo : String
  num_rounds : ℤ
  policy_ids : List ℕ
  notes : Option String
  session_mode : Option String

/-- A roundResults document. -/
structure RoundResultRow where
  session_id : ℕ
  round_index : ℤ
  policy_id : ℕ
  success : Bool
  episode_index : ℤ
  num_frames : Option ℤ

/-- An eloHistory document. -/
structure HistoryRow where
  policy_id : ℕ
  elo : ℝ
  session_id : ℕ

/-- The four collections, each list in creation order, plus the session id
counter. -/
structure DB where
  policies : List Policy
  sessions : List SessionRow
  roundResults : List RoundResultRow
  eloHistory : List HistoryRow
  nextSid : ℕ

/-- The empty store. -/
def emptyDB : DB := ⟨[], [], [], [], 0⟩

/-- One element of the policies argument of submit and addRounds. -/
structure PolicyArg where
  name : String
  model_id : String
  model_url : Option String
  training_url : Option String
  environment : String

/-- One element of a round's results argument. -/
structure ResultArg where
  model_id : String
  success : Bool
  episode_index : ℤ
  num_frames : Option ℤ

/-- One element of the rounds argument. -/
structure RoundArg where
  round_index : ℤ
  results : List ResultArg

/-- The argument record of submit. -/
structure SubmitArgs where
  dataset_repo : String
  notes : Option String
  session_mode : Option String
  policies : List PolicyArg
  rounds : List RoundArg

/-- The argument record of addRounds. -/
structure AddRoundsArgs where
  id : ℕ
  policies : List PolicyArg
  rounds : List RoundArg

/- ==================== policy upsert (submit step 1 / addRounds step 1) ==================== -/

/-- The by_model_id unique-index lookup: position of the first policy with the
given de-duplication key. -/
def findPolicy : List Policy → String → Option ℕ
  | [], _ => none
  | p :: ps, mid => if p.model_id = mid then some 0 else (findPolicy ps mid).map (· + 1)

/-- Patch the document at one position. -/
def modifyAt {α : Type} : List α → ℕ → (α → α) → List α
  | [], _, _ => []
  | x :: xs, 0, f => f x :: xs
  | x :: xs, n + 1, f => x :: modifyAt xs n f

/-- The patch applied to an existing policy: name, urls and environment only;
identity, rating and counters untouched. -/
def patchPolicy (p : Policy) (a : PolicyArg) : Policy :=
  { p with name := a.name, model_url := a.model_url, training_url := a.training_url,
           environment := a.environment }

/-- A freshly inserted policy: seed rating 1500 and zero counters. -/
def newPolicy (a : PolicyArg) : Policy :=
  { name := a.name, model_id := a.model_id, model_url := a.model_url,
    training_url := a.training_url, environment := a.environment,
    elo := 1500, wins := 0, losses := 0, draws := 0 }

/-- Map.set for the modelIdToPolicy map: a JavaScript Map keeps the insertion
position of an existing key (and the value re-set for an existing key is the
same id here), so iteration order is first-occurrence order. -/
def insKey (m : List (String × ℕ)) (k : String) (v : ℕ) : List (String × ℕ) :=
  if (m.lookup k).isSome then m else m ++ [(k, v)]

/-- The register/upsert loop over the policies argument (submit step 1,
addRounds step 1 - the two loops are textually identical). -/
def upsertGo : List Policy → List (String × ℕ) → List PolicyArg → List Policy × List (String × ℕ)
  | ps, m, [] => (ps, m)
  | ps, m, a :: rest =>
    match findPolicy ps a.model_id with
    | some i => upsertGo (modifyAt ps i (fun p => patchPolicy p a)) (insKey m a.model_id i) rest
    | none => upsertGo (ps ++ [newPolicy a]) (insKey m a.model_id ps.length) rest

/-- Run the upsert loop with an empty modelIdToPolicy map. -/
def upsertPolicies (ps : List Policy) (args : List PolicyArg) : List Policy × List (String × ℕ) :=
  upsertGo ps [] args

/-- modelIdToPolicy.get with the non-null assertion of the code; arguments are
well-formed when every result's model_id occurs in the policies argument. -/
def lookupId (m : List (String × ℕ)) (mid : String) : ℕ := (m.lookup mid).getD 0

/-- ctx.db.get(policyId).elo. -/
noncomputable def eloAt (ps : List Policy) (pid : ℕ) : ℝ := ((ps.get? pid).map Policy.elo).getD 0

/- ==================== commit loop (submit step 4 / replay step 6) ==================== -/

/-- One iteration of the apply loop: read the policy back, round the new
rating, patch rating and counters, insert one eloHistory row. -/
noncomputable def commitOne (sid : ℕ) (d : Deltas) (acc : List Policy × List HistoryRow)
    (pid : ℕ) : List Policy × List HistoryRow :=
  let newElo := round2 (eloAt acc.1 pid + d.elo pid)
  (modifyAt acc.1 pid fun p =>
      { p with elo := newElo, wins := p.wins + d.wins pid,
               losses := p.losses + d.losses pid, draws := p.draws + d.draws pid },
   acc.2 ++ [{ policy_id := pid, elo := newElo, session_id := sid }])

/-- The apply loop over the session's policy ids. -/
noncomputable def commitSession (sid : ℕ) (d : Deltas) (ps : List Policy)
    (hist : List HistoryRow) (ids : List ℕ) : List Policy × List HistoryRow :=
  ids.foldl (commitOne sid d) (ps, hist)

/- ==================== submit (evalSessions.ts lines 6-183) ==================== -/

/-- The roundResults rows inserted by submit step 3 (and addRounds step 3). -/
def insertedRows (m : List (String × ℕ)) (sid : ℕ) (rounds : List RoundArg) :
    List RoundResultRow :=
  rounds.flatMap fun r => r.results.map fun res =>
    { session_id := sid, round_index := r.round_index, policy_id := lookupId m res.model_id,
      success := res.success, episode_index := res.episode_index, num_frames := res.num_frames }

/-- The per-round (policyId, success) lists fed to the pairwise loop. -/
def roundsOf (m : List (String × ℕ)) (rounds : List RoundArg) : List (List (ℕ × Bool)) :=
  rounds.map fun r => r.results.map fun res => (lookupId m res.model_id, res.success)

/-- Embedding of the submit mutation: upsert policies, create the session row,
insert round results, and unless session_mode is the rating-exempt "rollout",
accumulate elo/counter deltas over every round and commit them with one
eloHistory row per declared participant. -/
noncomputable def submit (db : DB) (args : SubmitArgs) : DB × ℕ :=
  let up := upsertPolicies db.policies args.policies
  let ps1 := up.1
  let m := up.2
  let policyIds := args.policies.map fun p => lookupId m p.model_id
  let sid := db.nextSid
  let session : SessionRow :=
    { sid := sid, dataset_repo := args.dataset_repo, num_rounds := (args.rounds.length : ℤ),
      policy_ids := policyIds, notes := args.notes, session_mode := args.session_mode }
  let db1 : DB :=
    { policies := ps1, sessions := db.sessions ++ [session],
      roundResults := db.roundResults ++ insertedRows m sid args.rounds,
      eloHistory := db.eloHistory, nextSid := db.nextSid + 1 }
  if args.session_mode = some "rollout" then (db1, sid)
  else
    let d := ingestRounds (eloAt ps1) Deltas.init (roundsOf m args.rounds)
    let c := commitSession sid d ps1 db.eloHistory policyIds
    ({ db1 with policies := c.1, eloHistory := c.2 }, sid)

/- ==================== upsert preservation lemmas ==================== -/

/-- The rating-relevant state of a policy document. -/
def ratingState (p : Policy) : ℝ × ℤ × ℤ × ℤ := (p.elo, p.wins, p.losses, p.draws)

lemma ratingState_patchPolicy (p : Policy) (a : PolicyArg) :
    ratingState (patchPolicy p a) = ratingState p := rfl

lemma length_modifyAt {α : Type} (l : List α) (i : ℕ) (f : α → α) :
    (modifyAt l i f).length = l.length := by
  induction l generalizing i with
  | nil => rfl
  | cons x xs ih =>
    cases i with
    | zero => rfl
    | succ n => simp [modifyAt, ih]

lemma get?_modifyAt {α : Type} (l : List α) (i j : ℕ) (f : α → α) :
    (modifyAt l i f).get? j = if j = i then (l.get? j).map f else l.get? j := by
  induction l generalizing i j with
  | nil => simp [modifyAt]
  | cons x xs ih =>
    cases i with
    | zero =>
      cases j with
      | zero => simp [modifyAt]
      | succ jn => simp [modifyAt]
    | succ n =>
      cases j with
      | zero => simp [modifyAt]
      | succ jn => simpa [modifyAt] using ih n jn

lemma upsertGo_length (args : List PolicyArg) :
    ∀ (ps : List Policy) (m : List (String × ℕ)), ps.length ≤ (upsertGo ps m args).1.length := by
  induction args with
  | nil => intro ps m; simp [upsertGo]
  | cons a rest ih =>
    intro ps m
    cases hf : findPolicy ps a.model_id with
    | none =>
      have h := ih (ps ++ [newPolicy a]) (insKey m a.model_id ps.length)
      simp only [upsertGo, hf]
      simp at h
      omega
    | some i =>
      have h := ih (modifyAt ps i fun p => patchPolicy p a) (insKey m a.model_id i)
      rw [length_modifyAt] at h
      simpa only [upsertGo, hf] using h

lemma upsertGo_preserves (args : List PolicyArg) :
    ∀ (ps : List Policy) (m : List (String × ℕ)) (i : ℕ), i < ps.length →
      ((upsertGo ps m args).1.get? i).map ratingState = (ps.get? i).map ratingState := by
  induction args with
  | nil => intro ps m i _; rfl
  | cons a rest ih =>
    intro ps m i hi
    cases hf : findPolicy ps a.model_id with
    | none =>
      have h := ih (ps ++ [newPolicy a]) (insKey m a.model_id ps.length) i
        (by simp; omega)
      simp only [upsertGo, hf]
      rw [h, List.get?_append hi]
    | some k =>
      have h := ih (modifyAt ps k fun p => patchPolicy p a) (insKey m a.model_id k) i
        (by rw [length_modifyAt]; exact hi)
      simp only [upsertGo, hf]
      rw [h, get?_modifyAt]
      by_cases hik : i = k
      · rw [if_pos hik]
        cases ps.get? i <;> simp [ratingState_patchPolicy]
      · rw [if_neg hik]

/- ==================== C5: rollout sessions are rating-exempt ==================== -/

/-- C5: a submit call with session_mode "rollout" inserts every RoundResult
row of the submitted rounds but inserts no EloHistoryEntry row and leaves the
rating and win/loss/draw counters of every pre-existing policy unchanged. -/
theorem C5_rollout_frame (db : DB) (args : SubmitArgs)
    (h : args.session_mode = some "rollout") :
    (submit db args).1.eloHistory = db.eloHistory ∧
    (submit db args).1.roundResults =
      db.roundResults ++
        insertedRows (upsertPolicies db.policies args.policies).2 db.nextSid args.rounds ∧
    ∀ i, i < db.policies.length →
      ((submit db args).1.policies.get? i).map ratingState =
        (db.policies.get? i).map ratingState := by
  refine ⟨by simp [submit, h], by simp [submit, h], fun i hi => ?_⟩
  simp only [submit, h, if_pos]
  exact upsertGo_preserves args.policies db.policies [] i hi

/-- A concrete rollout submission for the C5 witness. -/
def rolloutArgs : SubmitArgs :=
  ⟨"demo/repo", none, some "rollout", [⟨"A", "model-a", none, none, "sim"⟩],
   [⟨0, [⟨"model-a", true, 0, none⟩]⟩]⟩

/-- Witness for C5_rollout_frame on a concrete rollout submission over the
empty store. -/
theorem C5_witness :
    rolloutArgs.session_mode = some "rollout" ∧
    (submit emptyDB rolloutArgs).1.eloHistory = emptyDB.eloHistory :=
  ⟨rfl, (C5_rollout_frame emptyDB rolloutArgs rfl).1⟩

/- ==================== deleteSession (evalSessions.ts lines 276-430) ==================== -/

/-- Mutation failure signal: the thrown Error("Session not found"). -/
inductive Err where
  | notFound
deriving DecidableEq

/-- Insert into a sorted list: the inner step of a stable ascending sort, the
behavior of Array.prototype.sort with a numeric comparator. -/
def insertBy {α : Type} (le : α → α → Prop) [DecidableRel le] (x : α) : List α → List α
  | [] => [x]
  | y :: ys => if le x y then x :: y :: ys else y :: insertBy le x ys

/-- Stable insertion sort. -/
def sortBy {α : Type} (le : α → α → Prop) [DecidableRel le] : List α → List α
  | [] => []
  | x :: xs => insertBy le x (sortBy le xs)

/-- JavaScript Map insertion order: first occurrence of each key. -/
def dedupKeys {α : Type} [DecidableEq α] : List α → List α
  | [] => []
  | x :: xs => x :: (dedupKeys xs).filter fun y => ¬y = x

/-- Round keys of a session's results in the replay: the keys of the roundsMap
grouping (one per distinct round index), sorted ascending by round index. -/
def sortedRoundKeys (rs : List RoundResultRow) : List ℤ :=
  sortBy (· ≤ ·) (dedupKeys (rs.map RoundResultRow.round_index))

/-- Replay of one remaining session inside deleteSession: rollout sessions are
skipped entirely; otherwise the session's rows are grouped by round index,
rounds are replayed in ascending index order through the replay pairwise loop,
and the accumulated deltas are committed with one fresh history row per
participant. -/
noncomputable def replayOneSession (rr : List RoundResultRow)
    (acc : List Policy × List HistoryRow) (sess : SessionRow) : List Policy × List HistoryRow :=
  if sess.session_mode = some "rollout" then acc
  else
    let sessResults := rr.filter fun r => r.session_id = sess.sid
    let rounds := (sortedRoundKeys sessResults).map fun k =>
      (sessResults.filter fun r => r.round_index = k).map fun r => (r.policy_id, r.success)
    let d := replayRounds (eloAt acc.1) Deltas.init rounds
    commitSession sess.sid d acc.1 acc.2 sess.policy_ids

/-- Embedding of the deleteSession mutation: NotFound on an unknown id;
otherwise delete the session's round results, all history rows and the session
itself, reset every policy to rating 1500 and zero counters, and replay every
remaining session in creation order. -/
noncomputable def deleteSession (db : DB) (sid : ℕ) : Except Err (DB × ℕ) :=
  match db.sessions.find? fun s => s.sid = sid with
  | none => .error .notFound
  | some _ =>
    let rr1 := db.roundResults.filter fun r => ¬r.session_id = sid
    let sess1 := db.sessions.filter fun s => ¬s.sid = sid
    let ps1 := db.policies.map fun p => { p with elo := 1500, wins := 0, losses := 0, draws := 0 }
    let c := sess1.foldl (replayOneSession rr1) (ps1, [])
    .ok ({ db with policies := c.1, sessions := sess1, roundResults := rr1, eloHistory := c.2 },
      sess1.length)

/- ==================== rounding and rating evaluation lemmas ==================== -/

lemma round2_le_add (x : ℝ) : round2 x ≤ x + 1 / 200 := by
  have h : ((round (x * 100) : ℤ) : ℝ) ≤ x * 100 + 1 / 2 := round_le_add_half (x * 100)
  rw [round2]
  linarith

lemma round2_intVal (n : ℤ) : round2 ((n : ℝ)) = (n : ℝ) := by
  rw [round2]
  have h : (n : ℝ) * 100 = ((n * 100 : ℤ) : ℝ) := by push_cast; ring
  rw [h, round_intCast]
  push_cast
  ring

lemma round2_idem (x : ℝ) : round2 (round2 x) = round2 x := by
  rw [round2, round2]
  have h : ((round (x * 100) : ℤ) : ℝ) / 100 * 100 = ((round (x * 100) : ℤ) : ℝ) := by ring
  rw [h, round_intCast]

lemma computeEloUpdate_1500_1500_1 : computeEloUpdate 1500 1500 1 = (1516, 1484) := by
  have hA : eloPreA 1500 1500 1 = 1516 := by
    rw [eloPreA, eloExpectedA_self, K]; norm_num
  have hB : eloPreB 1500 1500 1 = 1484 := by
    rw [eloPreB, eloExpectedA_self, K]; norm_num
  rw [computeEloUpdate, hA, hB]
  have h1 : round2 (1516 : ℝ) = 1516 := by
    rw [show (1516 : ℝ) = ((1516 : ℤ) : ℝ) by norm_num, round2_intVal]
  have h2 : round2 (1484 : ℝ) = 1484 := by
    rw [show (1484 : ℝ) = ((1484 : ℤ) : ℝ) by norm_num, round2_intVal]
  rw [h1, h2]

lemma rpow_draw_exponent_lt : (10 : ℝ) ^ ((-2 / 25 : ℝ)) < 1000 / 1001 := by
  have h10 : (1 : ℝ) < 10 := by norm_num
  have hu : ((10 : ℝ) ^ ((1 / 16 : ℝ))) ^ (16 : ℕ) = 10 := by
    rw [← Real.rpow_natCast ((10 : ℝ) ^ ((1 / 16 : ℝ))) 16,
      ← Real.rpow_mul (by norm_num : (0 : ℝ) ≤ 10)]
    norm_num
  have hup : (0 : ℝ) < (10 : ℝ) ^ ((1 / 16 : ℝ)) := Real.rpow_pos_of_pos (by norm_num) _
  have hubig : (1001 / 1000 : ℝ) < (10 : ℝ) ^ ((1 / 16 : ℝ)) := by
    by_contra hc
    push_neg at hc
    have hp : ((10 : ℝ) ^ ((1 / 16 : ℝ))) ^ (16 : ℕ) ≤ (1001 / 1000 : ℝ) ^ (16 : ℕ) :=
      pow_le_pow_left (le_of_lt hup) hc 16
    rw [hu] at hp
    norm_num at hp
  have hstep : (10 : ℝ) ^ ((-2 / 25 : ℝ)) < (10 : ℝ) ^ ((-(1 / 16) : ℝ)) := by
    apply (Real.rpow_lt_rpow_left_iff h10).mpr
    norm_num
  have hneg : (10 : ℝ) ^ ((-(1 / 16) : ℝ)) = ((10 : ℝ) ^ ((1 / 16 : ℝ)))⁻¹ :=
    Real.rpow_neg (by norm_num) _
  calc (10 : ℝ) ^ ((-2 / 25 : ℝ)) < ((10 : ℝ) ^ ((1 / 16 : ℝ)))⁻¹ := by rw [← hneg]; exact hstep
    _ < (1001 / 1000 : ℝ)⁻¹ := by
        apply inv_lt_inv_of_lt (by norm_num) hubig
    _ = 1000 / 1001 := by norm_num

lemma eloExpectedA_1516_1484_gt : 3201 / 6400 < eloExpectedA 1516 1484 := by
  rw [eloExpectedA]
  have harg : ((1484 : ℝ) - 1516) / 400 = (-2 / 25 : ℝ) := by norm_num
  rw [harg]
  have htpos : 0 < (10 : ℝ) ^ ((-2 / 25 : ℝ)) := Real.rpow_pos_of_pos (by norm_num) _
  have htlt : (10 : ℝ) ^ ((-2 / 25 : ℝ)) < 1000 / 1001 := rpow_draw_exponent_lt
  rw [lt_div_iff (by linarith)]
  linarith

lemma eloPreA_draw_lt : eloPreA 1516 1484 (1 / 2) < 1516 - 1 / 200 := by
  rw [eloPreA, K]
  have h := eloExpectedA_1516_1484_gt
  linarith

/- ==================== C1: deletion vs fresh ingestion ==================== -/

/-- Policy argument A of the C1 scenario. -/
def pA : PolicyArg := ⟨"A", "a", none, none, "e"⟩

/-- Policy argument B of the C1 scenario. -/
def pB : PolicyArg := ⟨"B", "b", none, none, "e"⟩

/-- The session to be deleted: a rollout session with no rounds, submitted
first; it registers policies A and B. -/
def sessArgsDel : SubmitArgs := ⟨"d", none, some "rollout", [pA, pB], []⟩

/-- The surviving session: round 0 has A beating B, round 1 has A and B
drawing (both succeed). -/
def sessArgsMain : SubmitArgs :=
  ⟨"d", none, none, [pA, pB],
   [⟨0, [⟨"a", true, 0, none⟩, ⟨"b", false, 1, none⟩]⟩,
    ⟨1, [⟨"a", true, 2, none⟩, ⟨"b", true, 3, none⟩]⟩]⟩

/-- Stored ratings read during the scenario's pairwise loops. -/
noncomputable def gMain : ℕ → ℝ := eloAt [newPolicy pA, newPolicy pB]

lemma gMain0 : gMain 0 = 1500 := rfl

lemma gMain1 : gMain 1 = 1500 := rfl

/-- The ingest deltas of the surviving session's two rounds. -/
noncomputable def dMain : Deltas :=
  ingestRounds gMain Deltas.init [[(0, true), (1, false)], [(0, true), (1, true)]]

lemma dMain_elo0 : dMain.elo 0 = 16 := by
  simp [dMain, ingestRounds, ingestRound, orderedPairs, ingestPairStep, Deltas.init,
    Function.update_apply, gMain0, gMain1, computeEloUpdate_1500_1500_1]
  norm_num

/-- The replay deltas of the same two rounds: the draw in round 1 is fed
through computeEloUpdate at accumulated ratings 1516 and 1484. -/
noncomputable def dReplay : Deltas :=
  replayRounds gMain Deltas.init [[(0, true), (1, false)], [(0, true), (1, true)]]

lemma dReplay_elo0 : dReplay.elo 0 = (computeEloUpdate 1516 1484 (1 / 2)).1 - 1500 := by
  simp [dReplay, replayRounds, replayRound, orderedPairs, replayPairStep, Deltas.init,
    Function.update_apply, gMain0, gMain1, computeEloUpdate_1500_1500_1]

lemma submit_main_policies :
    (submit emptyDB sessArgsMain).1.policies =
      (commitSession 0 dMain [newPolicy pA, newPolicy pB] [] [0, 1]).1 := rfl

lemma submit_main_elo0 : eloAt (submit emptyDB sessArgsMain).1.policies 0 = 1516 := by
  rw [submit_main_policies]
  show eloAt (commitSession 0 dMain [newPolicy pA, newPolicy pB] [] [0, 1]).1 0 = 1516
  simp only [commitSession, List.foldl_cons, List.foldl_nil, commitOne, modifyAt]
  simp only [eloAt, List.get?, Option.map, Option.getD]
  rw [dMain_elo0]
  show round2 ((1500 : ℝ) + 16) = 1516
  rw [show (1500 : ℝ) + 16 = ((1516 : ℤ) : ℝ) by norm_num, round2_intVal]
  norm_num

lemma dbTwo_delete :
    deleteSession (submit (submit emptyDB sessArgsDel).1 sessArgsMain).1 0 =
      Except.ok
        ({ policies := (commitSession 1 dReplay [newPolicy pA, newPolicy pB] [] [0, 1]).1,
           sessions := [⟨1, "d", 2, [0, 1], none, none⟩],
           roundResults :=
             [⟨1, 0, 0, true, 0, none⟩, ⟨1, 0, 1, false, 1, none⟩,
              ⟨1, 1, 0, true, 2, none⟩, ⟨1, 1, 1, true, 3, none⟩],
           eloHistory := (commitSession 1 dReplay [newPolicy pA, newPolicy pB] [] [0, 1]).2,
           nextSid := 2 }, 1) := rfl

lemma dbDel_elo0_lt :
    eloAt (commitSession 1 dReplay [newPolicy pA, newPolicy pB] [] [0, 1]).1 0 < 1516 := by
  simp only [commitSession, List.foldl_cons, List.foldl_nil, commitOne, modifyAt]
  simp only [eloAt, List.get?, Option.map, Option.getD]
  rw [dReplay_elo0]
  show round2 ((1500 : ℝ) + ((computeEloUpdate 1516 1484 (1 / 2)).1 - 1500)) < 1516
  rw [show (1500 : ℝ) + ((computeEloUpdate 1516 1484 (1 / 2)).1 - 1500) =
      (computeEloUpdate 1516 1484 (1 / 2)).1 by ring]
  show round2 (round2 (eloPreA 1516 1484 (1 / 2))) < 1516
  rw [round2_idem]
  have h2 := round2_le_add (eloPreA 1516 1484 (1 / 2))
  have h3 := eloPreA_draw_lt
  linarith

/-- C1: deleteSession is not equivalent to a fresh ingestion of the remaining
sessions.  Concretely: submit a rollout session registering A and B, then a
session whose round 0 has A beating B and whose round 1 is a draw; deleting the
rollout session replays the surviving session with the draw fed through
computeEloUpdate at accumulated ratings 1516/1484, leaving policy A strictly
below 1516, whereas a fresh submit of the surviving session alone (the draw
changes no rating) leaves policy A at exactly 1516. -/
theorem C1_delete_not_fresh :
    ∃ (db' : DB) (k : ℕ),
      deleteSession (submit (submit emptyDB sessArgsDel).1 sessArgsMain).1 0 =
        Except.ok (db', k) ∧
      eloAt db'.policies 0 < 1516 ∧
      eloAt (submit emptyDB sessArgsMain).1.policies 0 = 1516 :=
  ⟨_, 1, dbTwo_delete, dbDel_elo0_lt, submit_main_elo0⟩

/- ==================== addRounds (evalSessions.ts lines 432-625) ==================== -/

/-- The update-or-insert of an eloHistory row for (policy, session): patch the
first existing entry of that policy for this session, else insert at the end. -/
noncomputable def upsertHistory : List HistoryRow → ℕ → ℕ → ℝ → List HistoryRow
  | [], pid, sid, x => [⟨pid, x, sid⟩]
  | e :: es, pid, sid, x =>
    if e.policy_id = pid ∧ e.session_id = sid then { e with elo := x } :: es
    else e :: upsertHistory es pid sid x

/-- One iteration of the addRounds apply loop (lines 594-620): patch the
policy's rating and counters and update-or-insert its history row. -/
noncomputable def addCommitOne (sid : ℕ) (d : Deltas) (acc : List Policy × List HistoryRow)
    (pid : ℕ) : List Policy × List HistoryRow :=
  let newElo := round2 (eloAt acc.1 pid + d.elo pid)
  (modifyAt acc.1 pid fun p =>
      { p with elo := newElo, wins := p.wins + d.wins pid,
               losses := p.losses + d.losses pid, draws := p.draws + d.draws pid },
   upsertHistory acc.2 pid sid newElo)

/-- Embedding of the addRounds mutation: NotFound on an unknown session id;
otherwise upsert the declared policies, widen the participant list with newly
seen policy ids, append the new round results, patch the session metadata
(num_rounds, policy_ids and a generated notes string), and unless the session
is a rollout, apply elo deltas for the new rounds only, iterating over the
policies of the new rounds in first-appearance order. -/
noncomputable def addRounds (db : DB) (args : AddRoundsArgs) : Except Err (DB × ℕ) :=
  match db.sessions.find? fun s => s.sid = args.id with
  | none => .error .notFound
  | some session =>
    let up := upsertPolicies db.policies args.policies
    let ps1 := up.1
    let m := up.2
    let newIds := (m.map Prod.snd).filter fun i => ¬session.policy_ids.contains i
    let updatedPolicyIds := session.policy_ids ++ newIds
    let newNumRounds := session.num_rounds + (args.rounds.length : ℤ)
    let notesStr := "Eval: " ++ toString updatedPolicyIds.length ++ " policies, " ++
      toString newNumRounds ++ " rounds"
    let sess1 := db.sessions.map fun s =>
      if s.sid = args.id then
        { s with num_rounds := newNumRounds, policy_ids := updatedPolicyIds,
                 notes := some notesStr }
      else s
    let db1 : DB :=
      { db with policies := ps1, sessions := sess1,
                roundResults := db.roundResults ++ insertedRows m args.id args.rounds }
    if session.session_mode = some "rollout" then .ok (db1, args.id)
    else
      let rounds := roundsOf m args.rounds
      let dom := dedupKeys (rounds.flatMap (List.map Prod.fst))
      let d := ingestRounds (eloAt ps1) Deltas.init rounds
      let c := dom.foldl (addCommitOne args.id d) (ps1, db.eloHistory)
      .ok ({ db1 with policies := c.1, eloHistory := c.2 }, args.id)

/-- The state seen by the caller of deleteSession: the transaction rolls back
on a thrown error, leaving the store as it was. -/
noncomputable def runDelete (db : DB) (sid : ℕ) : DB :=
  match deleteSession db sid with
  | .error _ => db
  | .ok (db', _) => db'

/-- The state seen by the caller of addRounds: the transaction rolls back on a
thrown error, leaving the store as it was. -/
noncomputable def runAddRounds (db : DB) (args : AddRoundsArgs) : DB :=
  match addRounds db args with
  | .error _ => db
  | .ok (db', _) => db'

/- ==================== C9: NotFound behavior ==================== -/

/-- C9: deleteSession and addRounds signal NotFound exactly when the given
session id resolves to no session, and on that error the caller-visible store
is unchanged (the session lookup precedes every write, and the mutation is one
transaction). -/
theorem C9_notFound (db : DB) (sid : ℕ) (args : AddRoundsArgs) :
    (deleteSession db sid = Except.error Err.notFound ↔
      db.sessions.find? (fun s => s.sid = sid) = none) ∧
    (addRounds db args = Except.error Err.notFound ↔
      db.sessions.find? (fun s => s.sid = args.id) = none) ∧
    (deleteSession db sid = Except.error Err.notFound → runDelete db sid = db) ∧
    (addRounds db args = Except.error Err.notFound → runAddRounds db args = db) := by
  refine ⟨?_, ?_, ?_, ?_⟩
  · constructor
    · intro h
      cases hf : db.sessions.find? fun s => s.sid = sid with
      | none => rfl
      | some s =>
        rw [deleteSession, hf] at h
        exact absurd h (by simp)
    · intro hf
      rw [deleteSession, hf]
  · constructor
    · intro h
      cases hf : db.sessions.find? fun s => s.sid = args.id with
      | none => rfl
      | some s =>
        rw [addRounds, hf] at h
        by_cases hm : s.session_mode = some "rollout" <;> simp [hm] at h
    · intro hf
      rw [addRounds, hf]
  · intro h
    rw [runDelete, h]
  · intro h
    rw [runAddRounds, h]

/-- Witness for C9_notFound: on the empty store, session id 0 does not exist,
deleteSession signals NotFound and the caller-visible store is unchanged. -/
theorem C9_witness :
    (deleteSession emptyDB 0 = Except.error Err.notFound ↔
      emptyDB.sessions.find? (fun s => s.sid = 0) = none) ∧
    runDelete emptyDB 0 = emptyDB :=
  ⟨(C9_notFound emptyDB 0 ⟨0, [], []⟩).1,
   (C9_notFound emptyDB 0 ⟨0, [], []⟩).2.2.1 ((C9_notFound emptyDB 0 ⟨0, [], []⟩).1.mpr rfl)⟩

/- ==================== C10: addRounds overwrites notes ==================== -/

lemma find?_sid_map_patch (l : List SessionRow) (sid : ℕ) (f : SessionRow → SessionRow)
    (hf : ∀ s, (f s).sid = s.sid) (s : SessionRow)
    (hs : l.find? (fun x => x.sid = sid) = some s) :
    (l.map fun x => if x.sid = sid then f x else x).find? (fun x => x.sid = sid) =
      some (f s) := by
  induction l with
  | nil => simp at hs
  | cons y ys ih =>
    by_cases hy : y.sid = sid
    · rw [List.find?_cons_of_pos _ (by simpa using hy)] at hs
      obtain rfl : y = s := by injection hs
      simp only [List.map_cons, if_pos hy]
      exact List.find?_cons_of_pos _ (by simpa using (hf y).trans hy)
    · rw [List.find?_cons_of_neg _ (by simpa using hy)] at hs
      simp only [List.map_cons, if_neg hy]
      rw [List.find?_cons_of_neg _ (by simpa using hy)]
      exact ih hs

lemma addRounds_find_helper (l : List SessionRow) (sid : ℕ) (N : ℤ) (P : List ℕ)
    (str : String) (s : SessionRow) (hs : l.find? (fun x => x.sid = sid) = some s) :
    (l.map fun x => if x.sid = sid then
        { x with num_rounds := N, policy_ids := P, notes := some str } else x).find?
      (fun x => x.sid = sid) =
      some { s with num_rounds := N, policy_ids := P, notes := some str } :=
  find?_sid_map_patch l sid
    (fun x => { x with num_rounds := N, policy_ids := P, notes := some str })
    (fun _ => rfl) s hs

/-- C10: a successful addRounds call overwrites the session's notes with the
generated summary string built from the new participant count and round count,
regardless of any note supplied at submit time, and updates num_rounds and
widens the participant list. -/
theorem C10_notes_overwrite (db : DB) (args : AddRoundsArgs) (db' : DB) (k : ℕ)
    (s : SessionRow) (hs : db.sessions.find? (fun x => x.sid = args.id) = some s)
    (h : addRounds db args = Except.ok (db', k)) :
    ∃ s', db'.sessions.find? (fun x => x.sid = args.id) = some s' ∧
      s'.notes = some ("Eval: " ++ toString s'.policy_ids.length ++ " policies, " ++
        toString s'.num_rounds ++ " rounds") ∧
      s'.num_rounds = s.num_rounds + (args.rounds.length : ℤ) ∧
      ∃ ext, s'.policy_ids = s.policy_ids ++ ext := by
  simp only [addRounds, hs] at h
  by_cases hm : s.session_mode = some "rollout"
  · rw [if_pos hm] at h
    simp only [Except.ok.injEq, Prod.mk.injEq] at h
    obtain ⟨h1, -⟩ := h
    subst h1
    exact ⟨_, addRounds_find_helper db.sessions args.id _ _ _ s hs, rfl, rfl, ⟨_, rfl⟩⟩
  · rw [if_neg hm] at h
    simp only [Except.ok.injEq, Prod.mk.injEq] at h
    obtain ⟨h1, -⟩ := h
    subst h1
    exact ⟨_, addRounds_find_helper db.sessions args.id _ _ _ s hs, rfl, rfl, ⟨_, rfl⟩⟩

/-- Witness for C10_notes_overwrite: an addRounds call with no new policies
and no new rounds on the rollout session still rewrites the notes to
"Eval: 1 policies, 1 rounds". -/
theorem C10_witness :
    ∃ s',
      (runAddRounds (submit emptyDB rolloutArgs).1 ⟨0, [], []⟩).sessions.find?
          (fun x => x.sid = 0) = some s' ∧
      s'.notes = some ("Eval: " ++ toString s'.policy_ids.length ++ " policies, " ++
        toString s'.num_rounds ++ " rounds") := by
  obtain ⟨s', h1, h2, -, -⟩ :=
    C10_notes_overwrite (submit emptyDB rolloutArgs).1 ⟨0, [], []⟩ _ _
      ⟨0, "demo/repo", 1, [0], none, some "rollout"⟩ rfl rfl
  exact ⟨s', h1, h2⟩

/- ==================== leaderboard (convex/policies.ts lines 11-54) ==================== -/

/-- One leaderboard row: the policy document spread together with the two
derived read-side values. -/
structure LeaderRow where
  pid : ℕ
  policy : Policy
  successRate : Option ℚ
  avgSuccessSteps : Option ℤ

/-- The per-policy enrichment of the leaderboard query: successRate is
successes / total (null when no rounds), avgSuccessSteps is Math.round of the
mean frame count over successful rounds that recorded one (null when none). -/
noncomputable def enrichPolicy (db : DB) (pid : ℕ) (p : Policy) : LeaderRow :=
  let results := db.roundResults.filter fun r => r.policy_id = pid
  let total := results.length
  let successes := (results.filter fun r => r.success).length
  let successRate : Option ℚ :=
    if total > 0 then some ((successes : ℚ) / (total : ℚ)) else none
  let swf := results.filter fun r => r.success && r.num_frames.isSome
  let avgSuccessSteps : Option ℤ :=
    if swf.length > 0 then
      some (round (((swf.map fun r => ((r.num_frames.getD 0 : ℤ) : ℚ)).sum) / (swf.length : ℚ)))
    else none
  ⟨pid, p, successRate, avgSuccessSteps⟩

open Classical in
/-- Embedding of the leaderboard query: optionally filter by environment,
enrich every policy with its derived statistics, and sort by rating
descending (the comparator (a, b) => b.elo - a.elo).  A read-only query: it
returns rows and writes nothing. -/
noncomputable def leaderboard (db : DB) (env : Option String) : List LeaderRow :=
  let pols :=
    match env with
    | some e => db.policies.enum.filter fun pe : ℕ × Policy => pe.2.environment = e
    | none => db.policies.enum
  let enriched := pols.map fun pe : ℕ × Policy => enrichPolicy db pe.1 pe.2
  sortBy (fun a b => b.policy.elo ≤ a.policy.elo) enriched

lemma mem_insertBy {α : Type} (le : α → α → Prop) [DecidableRel le] (x y : α) (l : List α) :
    y ∈ insertBy le x l ↔ y = x ∨ y ∈ l := by
  induction l with
  | nil => simp [insertBy]
  | cons z zs ih =>
    by_cases hz : le x z
    · simp [insertBy, hz]
    · simp [insertBy, hz, ih]
      tauto

lemma mem_sortBy {α : Type} (le : α → α → Prop) [DecidableRel le] (y : α) (l : List α) :
    y ∈ sortBy le l ↔ y ∈ l := by
  induction l with
  | nil => simp [sortBy]
  | cons z zs ih =>
    simp [sortBy, mem_insertBy, ih]

/-- Modelled from the spec: successRate = successes / total-rounds-played,
null if zero rounds. -/
def specSuccessRate (db : DB) (pid : ℕ) : Option ℚ :=
  let rows := db.roundResults.filter fun r => r.policy_id = pid
  if rows.length = 0 then none
  else some (((rows.filter fun r => r.success = true).length : ℚ) / (rows.length : ℚ))

/-- Modelled from the spec: the exact mean of frame-count over successful
rounds that recorded a frame count, null if none qualify. -/
def specMeanFrames (db : DB) (pid : ℕ) : Option ℚ :=
  let rows := db.roundResults.filter fun r =>
    r.policy_id = pid ∧ r.success = true ∧ r.num_frames ≠ none
  if rows.length = 0 then none
  else some ((rows.map fun r => ((r.num_frames.getD 0 : ℤ) : ℚ)).sum / (rows.length : ℚ))

lemma enrichPolicy_fields (db : DB) (pid : ℕ) (p : Policy) :
    (enrichPolicy db pid p).successRate = specSuccessRate db pid ∧
    (enrichPolicy db pid p).avgSuccessSteps = (specMeanFrames db pid).map fun q => round q := by
  have hswf :
      (db.roundResults.filter fun r => r.policy_id = pid).filter
          (fun r => r.success && r.num_frames.isSome) =
        db.roundResults.filter fun r =>
          r.policy_id = pid ∧ r.success = true ∧ r.num_frames ≠ none := by
    rw [List.filter_filter]
    apply List.filter_congr
    intro r _
    cases hs : r.success <;> cases hnf : r.num_frames <;> simp [hs, hnf]
  have hsucc :
      (db.roundResults.filter fun r => r.policy_id = pid).filter (fun r => r.success) =
        (db.roundResults.filter fun r => r.policy_id = pid).filter (fun r => r.success = true) := by
    apply List.filter_congr
    intro r _
    cases hs : r.success <;> simp [hs]
  constructor
  · simp only [enrichPolicy, specSuccessRate]
    rw [hsucc]
    split_ifs with h1 h2 <;> first | rfl | omega
  · simp only [enrichPolicy, specMeanFrames]
    rw [hswf]
    split_ifs with h1 h2 <;> first | rfl | omega

/-- C8 (amended): every row of the leaderboard carries successRate equal to
the exact success ratio (null on zero rounds) and avgSuccessSteps equal to the
mean frame count over qualifying rounds ROUNDED to the nearest integer
(Math.round, half up) rather than the exact mean; the query is a pure read by
construction. -/
theorem C8_leaderboard (db : DB) (env : Option String) (row : LeaderRow)
    (h : row ∈ leaderboard db env) :
    row.successRate = specSuccessRate db row.pid ∧
    row.avgSuccessSteps = (specMeanFrames db row.pid).map fun q => round q := by
  rw [leaderboard.eq_def] at h
  rw [mem_sortBy] at h
  rw [List.mem_map] at h
  obtain ⟨pe, -, heq⟩ := h
  subst heq
  exact enrichPolicy_fields db pe.1 pe.2

/-- The C8 counterexample store: one policy with two successful rounds whose
frame counts are 1 and 2 (mean 1.5). -/
def dbC8 : DB :=
  ⟨[newPolicy pA], [], [⟨0, 0, 0, true, 0, some 1⟩, ⟨0, 0, 0, true, 1, some 2⟩], [], 1⟩

/-- C8 as stated is false: the leaderboard row of the single policy of dbC8
reports avgSuccessSteps = 2, but the mean of num_frames over its successful
frame-recording rows is 3/2; the code stores Math.round of the mean, not the
mean. -/
theorem C8_counterexample :
    ∃ row, leaderboard dbC8 none = [row] ∧
      row.avgSuccessSteps = some 2 ∧
      specMeanFrames dbC8 0 = some (3 / 2) ∧
      (row.avgSuccessSteps.map fun z : ℤ => (z : ℚ)) ≠ some (3 / 2) := by
  have hm : specMeanFrames dbC8 0 = some (3 / 2) := by
    rw [specMeanFrames]
    simp [dbC8, List.filter_cons, List.filter_nil]
    norm_num
  have hr : round ((3 : ℚ) / 2) = 2 := by
    rw [round_eq, show (3 : ℚ) / 2 + 1 / 2 = 2 by norm_num]
    norm_num
  have havg : (enrichPolicy dbC8 0 (newPolicy pA)).avgSuccessSteps = some 2 := by
    rw [(enrichPolicy_fields dbC8 0 (newPolicy pA)).2, hm]
    simp [hr]
  refine ⟨enrichPolicy dbC8 0 (newPolicy pA), rfl, havg, hm, ?_⟩
  rw [havg]
  intro hcon
  simp at hcon
  norm_num at hcon

/-- Witness for C8_leaderboard at the dbC8 store. -/
theorem C8_witness :
    (enrichPolicy dbC8 0 (newPolicy pA)).successRate = specSuccessRate dbC8 0 ∧
    (enrichPolicy dbC8 0 (newPolicy pA)).avgSuccessSteps =
      (specMeanFrames dbC8 0).map fun q => round q := by
  have hmem : enrichPolicy dbC8 0 (newPolicy pA) ∈ leaderboard dbC8 none := by
    rw [show leaderboard dbC8 none = [enrichPolicy dbC8 0 (newPolicy pA)] from rfl]
    exact List.mem_singleton_self _
  exact C8_leaderboard dbC8 none (enrichPolicy dbC8 0 (newPolicy pA)) hmem

/- ==================== C6: history uniqueness ==================== -/

/-- Number of eloHistory rows for one (policy, session) pair. -/
def histCount (hist : List HistoryRow) (pid sid : ℕ) : ℕ :=
  hist.countP fun e => decide (e.policy_id = pid ∧ e.session_id = sid)

/-- The resolved policy ids of a submit call, in declaration order: the
policy_ids list of the created session. -/
noncomputable def submitPolicyIds (db : DB) (args : SubmitArgs) : List ℕ :=
  args.policies.map fun p => lookupId (upsertPolicies db.policies args.policies).2 p.model_id

/-- The policy ids whose history rows one addRounds call writes: the policies
appearing in the new rounds, in first-appearance order. -/
noncomputable def addPids (db : DB) (c : AddRoundsArgs) : List ℕ :=
  dedupKeys ((roundsOf (upsertPolicies db.policies c.policies).2 c.rounds).flatMap
    (List.map Prod.fst))

/-- Sequential application of addRounds calls, each seeing the caller-visible
state of the previous one. -/
noncomputable def foldAdds (db : DB) (calls : List AddRoundsArgs) : DB :=
  calls.foldl runAddRounds db

/-- The policy ids with a history row for the session after a submit followed
by a sequence of addRounds calls. -/
noncomputable def participAfter : DB → List AddRoundsArgs → List ℕ → List ℕ
  | _, [], acc => acc
  | db, c :: cs, acc => participAfter (runAddRounds db c) cs (acc ++ addPids db c)

/-- C6 as stated is false: submit a session declaring only policy A with no
rounds, then addRounds declaring policy B with no rounds; B joins the
session's participant list but gets no EloHistoryEntry, so a participant of a
non-rating-exempt session has zero history rows. -/
theorem C6_counterexample :
    ∃ db' k, addRounds (submit emptyDB ⟨"d", none, none, [pA], []⟩).1 ⟨0, [pB], []⟩ =
        Except.ok (db', k) ∧
      ∃ s, db'.sessions.find? (fun x => x.sid = 0) = some s ∧
        (1 : ℕ) ∈ s.policy_ids ∧
        ¬s.session_mode = some "rollout" ∧
        histCount db'.eloHistory 1 0 = 0 := by
  refine ⟨_, _, rfl, _, rfl, ?_, ?_, ?_⟩
  · decide
  · decide
  · show histCount [⟨0, round2 ((1500 : ℝ) + 0), 0⟩] 1 0 = 0
    simp [histCount]

/- ==================== upsert map correctness ==================== -/

lemma findPolicy_model_id : ∀ (ps : List Policy) (mid : String) (i : ℕ),
    findPolicy ps mid = some i → (ps.get? i).map Policy.model_id = some mid := by
  intro ps
  induction ps with
  | nil => intro mid i h; simp [findPolicy] at h
  | cons p ps ih =>
    intro mid i h
    by_cases hp : p.model_id = mid
    · rw [findPolicy, if_pos hp] at h
      injection h with h
      subst h
      simp [hp]
    · rw [findPolicy, if_neg hp] at h
      obtain ⟨j, hj, rfl⟩ := Option.map_eq_some'.mp h
      simpa using ih mid j hj

/-- Correctness of the modelIdToPolicy map: every binding points at a policy
document carrying that de-duplication key. -/
def mapOK (ps : List Policy) (m : List (String × ℕ)) : Prop :=
  ∀ kv ∈ m, (ps.get? kv.2).map Policy.model_id = some kv.1

lemma insKey_mem {m : List (String × ℕ)} {k : String} {v : ℕ} {kv : String × ℕ}
    (h : kv ∈ insKey m k v) : kv ∈ m ∨ kv = (k, v) := by
  rw [insKey] at h
  split at h
  · exact Or.inl h
  · rcases List.mem_append.mp h with h | h
    · exact Or.inl h
    · exact Or.inr (List.mem_singleton.mp h)

lemma modifyAt_model_id (ps : List Policy) (i : ℕ) (a : PolicyArg) (v : ℕ) :
    ((modifyAt ps i fun p => patchPolicy p a).get? v).map Policy.model_id =
      (ps.get? v).map Policy.model_id := by
  rw [get?_modifyAt]
  by_cases hv : v = i
  · rw [if_pos hv]
    cases ps.get? v <;> simp [patchPolicy]
  · rw [if_neg hv]

lemma upsertGo_mapOK (args : List PolicyArg) :
    ∀ (ps : List Policy) (m : List (String × ℕ)), mapOK ps m →
      mapOK (upsertGo ps m args).1 (upsertGo ps m args).2 := by
  induction args with
  | nil => intro ps m h; simpa [upsertGo] using h
  | cons a rest ih =>
    intro ps m hOK
    cases hf : findPolicy ps a.model_id with
    | some i =>
      simp only [upsertGo, hf]
      apply ih
      intro kv hkv
      rw [modifyAt_model_id]
      rcases insKey_mem hkv with h | h
      · exact hOK kv h
      · subst h
        exact findPolicy_model_id ps a.model_id i hf
    | none =>
      simp only [upsertGo, hf]
      apply ih
      intro kv hkv
      rcases insKey_mem hkv with h | h
      · have hold := hOK kv h
        have hlt : kv.2 < ps.length := by
          rcases hod : ps.get? kv.2 with _ | p
          · rw [hod] at hold
            simp at hold
          · exact (List.get?_eq_some.mp hod).1
        rw [List.get?_append hlt]
        exact hold
      · subst h
        show ((ps ++ [newPolicy a]).get? ps.length).map Policy.model_id = some a.model_id
        rw [List.get?_concat_length]
        rfl

lemma lookup_append_some (m m' : List (String × ℕ)) (k : String) (v : ℕ)
    (h : m.lookup k = some v) : (m ++ m').lookup k = some v := by
  induction m with
  | nil => simp at h
  | cons kv rest ih =>
    obtain ⟨k1, v1⟩ := kv
    simp only [List.cons_append]
    by_cases hk : (k == k1) = true
    · simp only [List.lookup, hk] at h ⊢
      exact h
    · simp only [List.lookup, hk] at h ⊢
      exact ih h

lemma lookup_append_tail (m : List (String × ℕ)) (k : String) (v : ℕ)
    (h : m.lookup k = none) : (m ++ [(k, v)]).lookup k = some v := by
  induction m with
  | nil => simp [List.lookup]
  | cons kv rest ih =>
    obtain ⟨k1, v1⟩ := kv
    simp only [List.cons_append]
    by_cases hk : (k == k1) = true
    · simp only [List.lookup, hk] at h
      exact (Option.some_ne_none v1 h).elim
    · simp only [List.lookup, hk] at h ⊢
      exact ih h

lemma insKey_lookup_preserve {m : List (String × ℕ)} {k : String} {v : ℕ} (k' : String)
    (v' : ℕ) (h : m.lookup k = some v) : (insKey m k' v').lookup k = some v := by
  rw [insKey]
  split
  · exact h
  · exact lookup_append_some m [(k', v')] k v h

lemma insKey_lookup_self (m : List (String × ℕ)) (k : String) (v : ℕ) :
    ((insKey m k v).lookup k).isSome := by
  by_cases hk : (m.lookup k).isSome
  · rw [insKey, if_pos hk]
    exact hk
  · rw [insKey, if_neg hk]
    rw [lookup_append_tail m k v (Option.not_isSome_iff_eq_none.mp hk)]
    rfl

lemma upsertGo_lookup_mono (args : List PolicyArg) :
    ∀ (ps : List Policy) (m : List (String × ℕ)) (k : String) (v : ℕ),
      m.lookup k = some v → ((upsertGo ps m args).2).lookup k = some v := by
  induction args with
  | nil => intro ps m k v h; simpa [upsertGo] using h
  | cons a rest ih =>
    intro ps m k v h
    cases hf : findPolicy ps a.model_id <;> simp only [upsertGo, hf] <;>
      exact ih _ _ _ _ (insKey_lookup_preserve _ _ h)

lemma upsertGo_lookup_self (args : List PolicyArg) :
    ∀ (ps : List Policy) (m : List (String × ℕ)) (a : PolicyArg), a ∈ args →
      (((upsertGo ps m args).2).lookup a.model_id).isSome := by
  induction args with
  | nil => intro ps m a ha; simp at ha
  | cons a0 rest ih =>
    intro ps m a ha
    rcases List.mem_cons.mp ha with rfl | ha
    · cases hf : findPolicy ps a.model_id with
      | some i =>
        simp only [upsertGo, hf]
        obtain ⟨v, hv⟩ := Option.isSome_iff_exists.mp (insKey_lookup_self m a.model_id i)
        rw [upsertGo_lookup_mono rest _ _ _ _ hv]
        rfl
      | none =>
        simp only [upsertGo, hf]
        obtain ⟨v, hv⟩ :=
          Option.isSome_iff_exists.mp (insKey_lookup_self m a.model_id ps.length)
        rw [upsertGo_lookup_mono rest _ _ _ _ hv]
        rfl
    · cases hf : findPolicy ps a0.model_id <;> simp only [upsertGo, hf] <;> exact ih _ _ a ha

lemma lookup_mem : ∀ (m : List (String × ℕ)) (k : String) (v : ℕ),
    m.lookup k = some v → (k, v) ∈ m := by
  intro m
  induction m with
  | nil => intro k v h; simp at h
  | cons kv rest ih =>
    intro k v h
    obtain ⟨k1, v1⟩ := kv
    by_cases hk : (k == k1) = true
    · simp only [List.lookup, hk] at h
      injection h with h
      subst h
      have hkk : k = k1 := eq_of_beq hk
      subst hkk
      exact List.mem_cons_self _ _
    · simp only [List.lookup, hk] at h
      exact List.mem_cons_of_mem _ (ih k v h)

lemma submitPolicyIds_nodup (db : DB) (args : SubmitArgs)
    (hkeys : (args.policies.map PolicyArg.model_id).Nodup) :
    (submitPolicyIds db args).Nodup := by
  have hOK : mapOK (upsertPolicies db.policies args.policies).1
      (upsertPolicies db.policies args.policies).2 :=
    upsertGo_mapOK args.policies db.policies [] (by intro kv hkv; simp at hkv)
  have hmm : submitPolicyIds db args =
      (args.policies.map PolicyArg.model_id).map
        (fun k => lookupId (upsertPolicies db.policies args.policies).2 k) := by
    rw [submitPolicyIds, List.map_map]
    rfl
  rw [hmm]
  apply List.Nodup.map_on ?_ hkeys
  intro k1 hk1 k2 hk2 heq
  obtain ⟨a1, ha1, rfl⟩ := List.mem_map.mp hk1
  obtain ⟨a2, ha2, rfl⟩ := List.mem_map.mp hk2
  obtain ⟨v1, hv1⟩ :=
    Option.isSome_iff_exists.mp (upsertGo_lookup_self args.policies db.policies [] a1 ha1)
  obtain ⟨v2, hv2⟩ :=
    Option.isSome_iff_exists.mp (upsertGo_lookup_self args.policies db.policies [] a2 ha2)
  rw [lookupId, lookupId] at heq
  rw [show ((upsertPolicies db.policies args.policies).2).lookup a1.model_id = some v1 from hv1,
    show ((upsertPolicies db.policies args.policies).2).lookup a2.model_id = some v2 from hv2]
    at heq
  simp only [Option.getD_some] at heq
  subst heq
  have hm1 := hOK (a1.model_id, v1) (lookup_mem _ _ _ hv1)
  have hm2 := hOK (a2.model_id, v1) (lookup_mem _ _ _ hv2)
  rw [hm1] at hm2
  injection hm2

/- ==================== history counting lemmas ==================== -/

lemma histCount_append (h1 h2 : List HistoryRow) (pid sid : ℕ) :
    histCount (h1 ++ h2) pid sid = histCount h1 pid sid + histCount h2 pid sid := by
  simp [histCount, List.countP_append]

lemma histCount_zero_of_lt (hist : List HistoryRow) (sid pid : ℕ)
    (h : ∀ e ∈ hist, e.session_id < sid) : histCount hist pid sid = 0 := by
  rw [histCount, List.countP_eq_zero]
  intro e he
  simp only [decide_eq_true_eq, not_and]
  intro _
  exact Nat.ne_of_lt (h e he)

lemma count_nodup_ite (l : List ℕ) (h : l.Nodup) (x : ℕ) :
    l.count x = if x ∈ l then 1 else 0 := by
  by_cases hx : x ∈ l
  · rw [if_pos hx]
    have h1 := List.nodup_iff_count_le_one.mp h x
    have h2 : 0 < l.count x := List.count_pos_iff_mem.mpr hx
    omega
  · rw [if_neg hx, List.count_eq_zero_of_not_mem hx]

lemma commit_fold_histCount (sid : ℕ) (d : Deltas) (ids : List ℕ) :
    ∀ (ps : List Policy) (hist : List HistoryRow) (pid' sid' : ℕ),
      histCount (ids.foldl (commitOne sid d) (ps, hist)).2 pid' sid' =
        histCount hist pid' sid' + (if sid' = sid then ids.count pid' else 0) := by
  induction ids with
  | nil => intro ps hist pid' sid'; simp
  | cons p0 rest ih =>
    intro ps hist pid' sid'
    rw [List.foldl_cons]
    have ihh := ih (commitOne sid d (ps, hist) p0).1 (commitOne sid d (ps, hist) p0).2 pid' sid'
    rw [show rest.foldl (commitOne sid d) (commitOne sid d (ps, hist) p0) =
      rest.foldl (commitOne sid d)
        ((commitOne sid d (ps, hist) p0).1, (commitOne sid d (ps, hist) p0).2) from rfl]
    rw [ihh]
    rw [show (commitOne sid d (ps, hist) p0).2 =
      hist ++ [⟨p0, round2 (eloAt ps p0 + d.elo p0), sid⟩] from rfl]
    rw [histCount_append]
    by_cases hp : pid' = p0 <;> by_cases hs : sid' = sid <;>
      simp [histCount, List.countP_cons, List.count_cons, hp, hs] <;>
      omega

lemma upsertHistory_count_self (pid sid : ℕ) (x : ℝ) :
    ∀ hist : List HistoryRow, histCount hist pid sid ≤ 1 →
      histCount (upsertHistory hist pid sid x) pid sid = 1 := by
  intro hist
  induction hist with
  | nil => intro _; simp [upsertHistory, histCount, List.countP_cons]
  | cons e es ih =>
    intro h
    by_cases he : e.policy_id = pid ∧ e.session_id = sid
    · rw [upsertHistory, if_pos he]
      simp only [histCount, List.countP_cons, decide_eq_true_eq] at h ⊢
      rw [if_pos he] at h ⊢
      omega
    · rw [upsertHistory, if_neg he]
      simp only [histCount, List.countP_cons, decide_eq_true_eq] at h ⊢
      rw [if_neg he] at h ⊢
      have hrec := ih (by simp only [histCount]; omega)
      simp only [histCount] at hrec
      omega

lemma upsertHistory_count_other (pid sid : ℕ) (x : ℝ) (pid' sid' : ℕ)
    (hne : ¬(pid' = pid ∧ sid' = sid)) :
    ∀ hist : List HistoryRow,
      histCount (upsertHistory hist pid sid x) pid' sid' = histCount hist pid' sid' := by
  intro hist
  induction hist with
  | nil =>
    simp only [upsertHistory, histCount, List.countP_cons, List.countP_nil, decide_eq_true_eq]
    rw [if_neg (by simpa using fun h1 h2 => hne ⟨h1.symm, h2.symm⟩)]
  | cons e es ih =>
    by_cases he : e.policy_id = pid ∧ e.session_id = sid
    · rw [upsertHistory, if_pos he]
      simp only [histCount, List.countP_cons]
    · rw [upsertHistory, if_neg he]
      simp only [histCount, List.countP_cons] at ih ⊢
      omega

lemma add_fold_histCount (sid : ℕ) (d : Deltas) (dom : List ℕ) :
    ∀ (ps : List Policy) (hist : List HistoryRow),
      (∀ q, histCount hist q sid ≤ 1) →
      ∀ pid', histCount ((dom.foldl (addCommitOne sid d) (ps, hist))).2 pid' sid =
        if pid' ∈ dom ∨ histCount hist pid' sid = 1 then 1 else 0 := by
  induction dom with
  | nil =>
    intro ps hist hU pid'
    simp only [List.foldl_nil, List.not_mem_nil, false_or]
    have := hU pid'
    by_cases h1 : histCount hist pid' sid = 1
    · rw [if_pos h1, h1]
    · rw [if_neg h1]
      omega
  | cons p0 rest ih =>
    intro ps hist hU pid'
    rw [List.foldl_cons]
    have hU' : ∀ q, histCount (upsertHistory hist p0 sid
        (round2 (eloAt ps p0 + d.elo p0))) q sid ≤ 1 := by
      intro q
      by_cases hq : q = p0
      · subst hq
        rw [upsertHistory_count_self q sid _ _ (hU q)]
      · rw [upsertHistory_count_other p0 sid _ q sid (by simp [hq]) hist]
        exact hU q
    have ihh := ih (addCommitOne sid d (ps, hist) p0).1 (addCommitOne sid d (ps, hist) p0).2
      (by
        intro q
        show histCount (upsertHistory hist p0 sid _) q sid ≤ 1
        exact hU' q) pid'
    rw [show rest.foldl (addCommitOne sid d) (addCommitOne sid d (ps, hist) p0) =
      rest.foldl (addCommitOne sid d)
        ((addCommitOne sid d (ps, hist) p0).1, (addCommitOne sid d (ps, hist) p0).2) from rfl]
    rw [ihh]
    rw [show (addCommitOne sid d (ps, hist) p0).2 =
      upsertHistory hist p0 sid (round2 (eloAt ps p0 + d.elo p0)) from rfl]
    by_cases hp : pid' = p0
    · subst hp
      rw [upsertHistory_count_self pid' sid _ _ (hU pid')]
      simp [List.mem_cons]
    · rw [upsertHistory_count_other p0 sid _ pid' sid (by simp [hp]) hist]
      simp [List.mem_cons, hp]

/- ==================== C6 step reductions ==================== -/

lemma submit_hist_nr (db : DB) (args : SubmitArgs)
    (hnr : ¬args.session_mode = some "rollout") :
    (submit db args).1.eloHistory =
      ((submitPolicyIds db args).foldl
        (commitOne db.nextSid
          (ingestRounds (eloAt (upsertPolicies db.policies args.policies).1) Deltas.init
            (roundsOf (upsertPolicies db.policies args.policies).2 args.rounds)))
        ((upsertPolicies db.policies args.policies).1, db.eloHistory)).2 := by
  simp only [submit, if_neg hnr]
  rfl

lemma submit_hist_r (db : DB) (args : SubmitArgs)
    (hr : args.session_mode = some "rollout") :
    (submit db args).1.eloHistory = db.eloHistory := by
  simp only [submit, if_pos hr]

lemma find?_append_single (l : List SessionRow) (s : SessionRow) (p : SessionRow → Bool)
    (hl : ∀ x ∈ l, ¬p x) (hs : p s) : (l ++ [s]).find? p = some s := by
  induction l with
  | nil =>
    show [s].find? p = some s
    exact List.find?_cons_of_pos _ hs
  | cons y ys ih =>
    rw [List.cons_append, List.find?_cons_of_neg _ (hl y (List.mem_cons_self _ _))]
    exact ih fun x hx => hl x (List.mem_cons_of_mem _ hx)

lemma submit_find (db : DB) (args : SubmitArgs)
    (hWFs : ∀ s ∈ db.sessions, s.sid < db.nextSid) :
    (submit db args).1.sessions.find? (fun x => x.sid = db.nextSid) =
      some ⟨db.nextSid, args.dataset_repo, (args.rounds.length : ℤ),
        submitPolicyIds db args, args.notes, args.session_mode⟩ := by
  have hsess : (submit db args).1.sessions = db.sessions ++
      [⟨db.nextSid, args.dataset_repo, (args.rounds.length : ℤ),
        submitPolicyIds db args, args.notes, args.session_mode⟩] := by
    by_cases hm : args.session_mode = some "rollout"
    · simp only [submit, if_pos hm, submitPolicyIds]
    · simp only [submit, if_neg hm, submitPolicyIds]
  rw [hsess]
  apply find?_append_single
  · intro x hx
    simpa using Nat.ne_of_lt (hWFs x hx)
  · simp

lemma runAddRounds_hist_nr (dbc : DB) (c : AddRoundsArgs) (s : SessionRow)
    (hfind : dbc.sessions.find? (fun x => x.sid = c.id) = some s)
    (hnr : ¬s.session_mode = some "rollout") :
    (runAddRounds dbc c).eloHistory =
      ((addPids dbc c).foldl
        (addCommitOne c.id
          (ingestRounds (eloAt (upsertPolicies dbc.policies c.policies).1) Deltas.init
            (roundsOf (upsertPolicies dbc.policies c.policies).2 c.rounds)))
        ((upsertPolicies dbc.policies c.policies).1, dbc.eloHistory)).2 := by
  simp only [runAddRounds, addRounds, hfind, if_neg hnr]
  rw [addPids]

lemma runAddRounds_hist_r (dbc : DB) (c : AddRoundsArgs) (s : SessionRow)
    (hfind : dbc.sessions.find? (fun x => x.sid = c.id) = some s)
    (hr : s.session_mode = some "rollout") :
    (runAddRounds dbc c).eloHistory = dbc.eloHistory := by
  simp only [runAddRounds, addRounds, hfind, if_pos hr]

lemma runAddRounds_find (dbc : DB) (c : AddRoundsArgs) (s : SessionRow)
    (hfind : dbc.sessions.find? (fun x => x.sid = c.id) = some s) :
    ∃ s', (runAddRounds dbc c).sessions.find? (fun x => x.sid = c.id) = some s' ∧
      s'.session_mode = s.session_mode := by
  have hsess : ∀ N P str, ∃ s',
      (dbc.sessions.map fun x => if x.sid = c.id then
        { x with num_rounds := N, policy_ids := P, notes := some str } else x).find?
        (fun x => x.sid = c.id) = some s' ∧ s'.session_mode = s.session_mode := by
    intro N P str
    exact ⟨_, addRounds_find_helper dbc.sessions c.id N P str s hfind, rfl⟩
  by_cases hm : s.session_mode = some "rollout"
  · simp only [runAddRounds, addRounds, hfind, if_pos hm]
    exact hsess _ _ _
  · simp only [runAddRounds, addRounds, hfind, if_neg hm]
    exact hsess _ _ _

/- ==================== C6 fold invariants ==================== -/

lemma fold_rollout (calls : List AddRoundsArgs) :
    ∀ (dbc : DB) (sid : ℕ) (s : SessionRow),
      dbc.sessions.find? (fun x => x.sid = sid) = some s →
      s.session_mode = some "rollout" →
      (∀ c ∈ calls, c.id = sid) →
      (∀ q, histCount dbc.eloHistory q sid = 0) →
      ∀ pid, histCount (foldAdds dbc calls).eloHistory pid sid = 0 := by
  induction calls with
  | nil =>
    intro dbc sid s hf hr hc hz pid
    exact hz pid
  | cons c cs ih =>
    intro dbc sid s hf hr hc hz pid
    have hcid : c.id = sid := hc c (List.mem_cons_self _ _)
    have hf' : dbc.sessions.find? (fun x => x.sid = c.id) = some s := by rw [hcid]; exact hf
    obtain ⟨s', hf2, hm2⟩ := runAddRounds_find dbc c s hf'
    have hf2' : (runAddRounds dbc c).sessions.find? (fun x => x.sid = sid) = some s' := by
      rw [← hcid]; exact hf2
    show histCount (foldAdds (runAddRounds dbc c) cs).eloHistory pid sid = 0
    apply ih (runAddRounds dbc c) sid s' hf2' (hm2.trans hr)
      (fun c' hc' => hc c' (List.mem_cons_of_mem _ hc'))
    intro q
    rw [runAddRounds_hist_r dbc c s hf' hr]
    exact hz q

lemma fold_nonrollout (calls : List AddRoundsArgs) :
    ∀ (dbc : DB) (sid : ℕ) (S : List ℕ) (s : SessionRow),
      dbc.sessions.find? (fun x => x.sid = sid) = some s →
      ¬s.session_mode = some "rollout" →
      (∀ c ∈ calls, c.id = sid) →
      (∀ q, histCount dbc.eloHistory q sid = if q ∈ S then 1 else 0) →
      ∀ pid, histCount (foldAdds dbc calls).eloHistory pid sid =
        if pid ∈ participAfter dbc calls S then 1 else 0 := by
  induction calls with
  | nil =>
    intro dbc sid S s hf hnr hc hinv pid
    exact hinv pid
  | cons c cs ih =>
    intro dbc sid S s hf hnr hc hinv pid
    have hcid : c.id = sid := hc c (List.mem_cons_self _ _)
    have hf' : dbc.sessions.find? (fun x => x.sid = c.id) = some s := by rw [hcid]; exact hf
    obtain ⟨s', hf2, hm2⟩ := runAddRounds_find dbc c s hf'
    have hf2' : (runAddRounds dbc c).sessions.find? (fun x => x.sid = sid) = some s' := by
      rw [← hcid]; exact hf2
    show histCount (foldAdds (runAddRounds dbc c) cs).eloHistory pid sid =
      if pid ∈ participAfter (runAddRounds dbc c) cs (S ++ addPids dbc c) then 1 else 0
    apply ih (runAddRounds dbc c) sid (S ++ addPids dbc c) s' hf2'
      (fun h => hnr (hm2 ▸ h)) (fun c' hc' => hc c' (List.mem_cons_of_mem _ hc'))
    intro q
    have hh := runAddRounds_hist_nr dbc c s hf' hnr
    rw [hcid] at hh
    rw [hh]
    have hle : ∀ p, histCount dbc.eloHistory p sid ≤ 1 := by
      intro p
      rw [hinv p]
      split <;> omega
    rw [add_fold_histCount sid
      (ingestRounds (eloAt (upsertPolicies dbc.policies c.policies).1) Deltas.init
        (roundsOf (upsertPolicies dbc.policies c.policies).2 c.rounds))
      (addPids dbc c) (upsertPolicies dbc.policies c.policies).1 dbc.eloHistory hle q, hinv q]
    by_cases hq1 : q ∈ S <;> by_cases hq2 : q ∈ addPids dbc c <;>
      simp [hq1, hq2, List.mem_append]

/-- C6 (amended): after one submit with pairwise-distinct de-duplication keys
followed by any sequence of addRounds calls on the resulting session, every
(policy, session) pair has AT MOST one EloHistoryEntry, and exactly one exists
for each policy that was declared at submit time or appeared in a result row
of some addRounds call - not for every member of the participant list, since
addRounds widens the participant list with declared-but-roundless policies
without writing a history row (the counterexample); a rating-exempt session
has none. -/
theorem C6_history_unique (db : DB) (args : SubmitArgs) (calls : List AddRoundsArgs)
    (hWFh : ∀ e ∈ db.eloHistory, e.session_id < db.nextSid)
    (hWFs : ∀ s ∈ db.sessions, s.sid < db.nextSid)
    (hkeys : (args.policies.map PolicyArg.model_id).Nodup)
    (hcalls : ∀ c ∈ calls, c.id = db.nextSid) :
    ∀ pid, histCount (foldAdds (submit db args).1 calls).eloHistory pid db.nextSid =
      if ¬args.session_mode = some "rollout" ∧
          pid ∈ participAfter (submit db args).1 calls (submitPolicyIds db args)
      then 1 else 0 := by
  intro pid
  by_cases hm : args.session_mode = some "rollout"
  · rw [if_neg (by simp [hm])]
    apply fold_rollout calls (submit db args).1 db.nextSid _ (submit_find db args hWFs) hm
      hcalls
    intro q
    rw [submit_hist_r db args hm]
    exact histCount_zero_of_lt db.eloHistory db.nextSid q hWFh
  · have hb : ∀ q, histCount (submit db args).1.eloHistory q db.nextSid =
        if q ∈ submitPolicyIds db args then 1 else 0 := by
      intro q
      rw [submit_hist_nr db args hm]
      rw [commit_fold_histCount]
      rw [histCount_zero_of_lt db.eloHistory db.nextSid q hWFh]
      rw [if_pos rfl]
      rw [count_nodup_ite _ (submitPolicyIds_nodup db args hkeys) q]
      simp
    have h := fold_nonrollout calls (submit db args).1 db.nextSid (submitPolicyIds db args) _
      (submit_find db args hWFs) hm hcalls hb pid
    rw [h]
    simp [hm]

/-- Witness for C6_history_unique: a single submit of one policy with no
rounds over the empty store, with no addRounds calls. -/
theorem C6_witness :
    histCount (foldAdds (submit emptyDB ⟨"d", none, none, [pA], []⟩).1 []).eloHistory 0 0 =
      if ¬(⟨"d", none, none, [pA], []⟩ : SubmitArgs).session_mode = some "rollout" ∧
          0 ∈ participAfter (submit emptyDB ⟨"d", none, none, [pA], []⟩).1 []
            (submitPolicyIds emptyDB ⟨"d", none, none, [pA], []⟩)
      then 1 else 0 :=
  C6_history_unique emptyDB ⟨"d", none, none, [pA], []⟩ [] (by simp [emptyDB])
    (by simp [emptyDB]) (by simp) (by simp) 0

end PolicyArena
